import Mathlib

/-!
# ESP32Emic2 : command framing and acknowledgment protocol

A shallow embedding of the Emic 2 text-to-speech driver (ESP32Emic2.cpp / ESP32Emic2.h).

* The controller talks to its surroundings only through calls (UART writes and reads,
  the millisecond counter, the console, the callback).  Every such call that leaves a
  mark is recorded as an `Event`; the result of running an operation is a `Run`.
* The surroundings are given as schedules: what the UART, the console and the clock
  offer at each iteration of a polling loop.  A schedule is finite; an operation
  that is still inside its loop when the schedule ends is `Run.pending`.
* Bytes are natural numbers (0..255); `int` values are integers; the 32-bit
  `unsigned long` arithmetic of the timers is written with an explicit modulus.
-/

namespace ESP32Emic2

/-! ## Wire constants (ESP32Emic2.h) -/

/-- Parser selector DECTALK. -/
def DECTALK : Int := 0
/-- Parser selector EPSON. -/
def EPSON : Int := 1
/-- Wait outcome: the expected byte was read. -/
def EMIC_OK : Int := 0
/-- Wait outcome: another byte was read and mismatches are not ignored. -/
def EMIC_FAIL : Int := 1
/-- Wait outcome: the timeout was reached. -/
def EMIC_TMOUT : Int := 2
/-- Value of the wait argument that asks for the acknowledgment wait. -/
def SYNC : Int := 0
/-- Settle window of the relay loop after a command, in milliseconds. -/
def SETTLE_TIME : Int := 25
/-- The acknowledgment byte, a colon. -/
def COLON : Int := 58

/-! ## Observable events and runs -/

/-- Diagnostic lines printed when the debug flag is set (the text itself is not modelled). -/
inductive Diag where
  | sayLine | demoLine | stopLine | pauseLine | voiceLine | volumeLine | wpmLine
  | parserLine | languageLine | defaultLine | currentLine | infoLine | helpLine
  deriving DecidableEq, Repr

/-- One observable action of the controller. -/
inductive Event where
  /-- uart.end() -/
  | uartEnd
  /-- uart.begin(baud, SERIAL_8N1, rx, tx, false, 20) -/
  | uartBegin (baud rx tx : Nat)
  /-- uart.setRxBufferSize(n) -/
  | setRxBufferSize (n : Nat)
  /-- uart.flush() -/
  | uartFlush
  /-- on_speak(), the installed function being `fn` -/
  | callback (fn : Nat)
  /-- uart.write of these bytes -/
  | tx (bytes : List Nat)
  /-- uart.read() returned this byte (acknowledgment wait) -/
  | rx (b : Nat)
  /-- uart.read(buffer, len) returned these bytes (relay loop) -/
  | rxChunk (bytes : List Nat)
  /-- Serial.read(buffer, len) returned these bytes (relay loop) -/
  | consoleRead (bytes : List Nat)
  /-- printf of these bytes to the display sink -/
  | echo (bytes : List Nat)
  /-- printf of a diagnostic line -/
  | log (line : Diag)
  /-- delay(ms) -/
  | delay (ms : Nat)
  deriving DecidableEq, Repr

/-- Outcome of running an operation against a finite schedule. -/
inductive Run (α : Type) where
  /-- the call returned `val` after the events of `trace` -/
  | done (val : α) (trace : List Event)
  /-- the schedule ended while the call was still looping; `trace` is what it did so far -/
  | pending (trace : List Event)
  /-- the call ran into undefined behaviour after `trace` -/
  | undef (trace : List Event)
  deriving DecidableEq, Repr

/-- Events of a run. -/
def Run.trace {α : Type} : Run α → List Event
  | Run.done _ t => t
  | Run.pending t => t
  | Run.undef t => t

/-- The same run, preceded by the events `es`. -/
def Run.pre {α : Type} (es : List Event) : Run α → Run α
  | Run.done v t => Run.done v (es ++ t)
  | Run.pending t => Run.pending (es ++ t)
  | Run.undef t => Run.undef (es ++ t)

/-- Sequencing: the second operation runs only when the first one has returned. -/
def Run.bind {α β : Type} (r : Run α) (f : α → Run β) : Run β :=
  match r with
  | Run.done v t => (f v).pre t
  | Run.pending t => Run.pending t
  | Run.undef t => Run.undef t

/-- Bytes put on the transport by a list of events, in order. -/
def wire : List Event → List Nat
  | [] => []
  | Event.tx bs :: es => bs ++ wire es
  | _ :: es => wire es

/-- How often the callback fired in a list of events. -/
def callbacks : List Event → Nat
  | [] => 0
  | Event.callback _ :: es => callbacks es + 1
  | _ :: es => callbacks es

/-! ## Clock and transport schedules -/

/-- The value millis() returns at time `now` (milliseconds since boot): a 32-bit counter. -/
def millis (now : Nat) : Nat := now % 4294967296

/-- Conversion of an int to unsigned long (32 bits). -/
def toULong (x : Int) : Nat := (x % 4294967296).toNat

/-- What one iteration of the loop in waitfor meets. -/
structure Step where
  /-- the byte uart.read() returns when uart.available() > 0, none when nothing is available -/
  avail : Option Nat
  /-- the time at which the loop test of this iteration calls millis() -/
  clock : Nat
  deriving DecidableEq, Repr

/-- Schedule of one acknowledgment wait. -/
structure Sched where
  /-- the time of the millis() call that opens the wait -/
  start : Nat
  /-- one entry per loop iteration -/
  steps : List Step
  deriving DecidableEq, Repr

/-- The do-while loop of waitfor; `timer` is the deadline computed before the loop. -/
def waitforLoop (c timeout : Int) (ignore : Bool) (timer : Nat) : List Step → Run Int
  | [] => Run.pending []
  | s :: rest =>
    match s.avail with
    | some b =>
      if (b : Int) = c then Run.done EMIC_OK [Event.rx b]
      else if ignore = false then Run.done EMIC_FAIL [Event.rx b]
      else if timeout = 0 ∨ millis s.clock < timer then
        (waitforLoop c timeout ignore timer rest).pre [Event.rx b]
      else Run.done EMIC_TMOUT [Event.rx b]
    | none =>
      if timeout = 0 ∨ millis s.clock < timer then waitforLoop c timeout ignore timer rest
      else Run.done EMIC_TMOUT []

/-- The deadline `millis() + timeout` as an unsigned long. -/
def deadline (start : Nat) (timeout : Int) : Nat :=
  (millis start + toULong timeout) % 4294967296

/-- Operation waitfor(c, timeout, ignore). -/
def waitfor (c timeout : Int) (ignore : Bool) (s : Sched) : Run Int :=
  waitforLoop c timeout ignore (deadline s.start timeout) s.steps

/-- The bytes the wait takes from the transport on these iterations. -/
def rxs : List Step → List Event
  | [] => []
  | s :: rest =>
    match s.avail with
    | some b => Event.rx b :: rxs rest
    | none => rxs rest

/-! ## Relay loop -/

/-- What one iteration of the outer loop of read_and_show meets. -/
structure RelayStep where
  /-- the successive non-empty results of uart.available() followed by uart.read(buffer, len)
  in the inner drain loop; the inner loop ends when available() returns 0, which is the
  end of this list (or an empty chunk) -/
  chunks : List (List Nat)
  /-- the bytes Serial.read(buffer, len) delivers, empty when Serial.available() is 0 -/
  console : List Nat
  /-- the time at which the loop test of this iteration calls millis() -/
  clock : Nat
  deriving DecidableEq, Repr

/-- Schedule of one run of the relay loop. -/
structure RelaySched where
  /-- the time of the millis() call that opens the loop -/
  start : Nat
  /-- one entry per outer iteration -/
  steps : List RelayStep
  deriving DecidableEq, Repr

/-- The part of a zero-terminated buffer that strlen and printf see. -/
def cstr (buf : List Nat) : List Nat := buf.takeWhile (fun b => b ≠ 0)

/-- The inner loop of read_and_show: drain the UART chunk by chunk, show each chunk and
pause 20 ms after it; the flag tells whether anything was received. -/
def drain : List (List Nat) → List Event × Bool
  | [] => ([], false)
  | ch :: more =>
    if 0 < ch.length then
      (Event.rxChunk ch :: Event.echo (cstr ch) :: Event.delay 20 :: (drain more).1, true)
    else ([], false)

/-- The events of one outer iteration of read_and_show. -/
def relayEvents (s : RelayStep) : List Event :=
  (drain s.chunks).1
    ++ (if (drain s.chunks).2 then [Event.echo [10]] else [])
    ++ (if 0 < s.console.length then
          [Event.consoleRead s.console, Event.tx s.console, Event.echo (cstr s.console)]
        else [])

/-- The outer do-while loop of read_and_show. -/
def relayLoop (timer : Nat) : List RelayStep → Run Unit
  | [] => Run.pending []
  | s :: rest =>
    if millis s.clock < timer then (relayLoop timer rest).pre (relayEvents s)
    else Run.done () (relayEvents s)

/-- Operation read_and_show(wait). -/
def read_and_show (wait : Int) (s : RelaySched) : Run Unit :=
  relayLoop (deadline s.start wait) s.steps

/-- The surroundings of one command: the schedule met by an acknowledgment wait and the
schedule met by the relay loop, whichever the command runs. -/
structure Env where
  /-- schedule of the acknowledgment wait -/
  ack : Sched
  /-- schedule of the relay loop -/
  relay : RelaySched
  deriving DecidableEq, Repr

/-! ## Number formatting and single precision arithmetic -/

/-- Decimal digits of `n` as ASCII bytes, most significant first (`fuel` digits at most). -/
def decDigits : Nat → Nat → List Nat
  | 0, _ => []
  | fuel + 1, n => if n < 10 then [48 + n] else decDigits fuel (n / 10) ++ [48 + n % 10]

/-- The text sprintf produces for the conversion %d of a 32-bit int. -/
def fmtInt (n : Int) : List Nat :=
  if n < 0 then 45 :: decDigits 10 n.natAbs else decDigits 10 n.natAbs

/-- The byte char('0' + x). -/
def digitByte (x : Int) : Nat := ((48 + x) % 256).toNat

/-- A finite single precision value, `mant * 2 ^ expo`. -/
structure F32 where
  /-- signed significand -/
  mant : Int
  /-- binary exponent -/
  expo : Int
  deriving DecidableEq, Repr

/-- Number of binary digits of `n` (with `fuel` at least that number). -/
def bitLen : Nat → Nat → Nat
  | 0, _ => 0
  | fuel + 1, n => if n = 0 then 0 else 1 + bitLen fuel (n / 2)

/-- Rounding of the exact value `m * 2 ^ e` to single precision: 24 significant bits,
exponent at least -149, round to nearest with ties to even; none when the result
overflows to infinity. -/
def F32.round (m e : Int) : Option F32 :=
  let a := m.natAbs
  let dropBits : Int := max ((bitLen a a : Int) - 24) (-149 - e)
  if dropBits ≤ 0 then
    if 128 < (bitLen a a : Int) + e then none else some ⟨m, e⟩
  else
    let d := dropBits.toNat
    let q := a / 2 ^ d
    let r := a % 2 ^ d
    let half := 2 ^ (d - 1)
    let q1 := if half < r ∨ (r = half ∧ q % 2 = 1) then q + 1 else q
    if 128 < (bitLen q1 q1 : Int) + (e + dropBits) then none
    else some ⟨if m < 0 then -(q1 : Int) else (q1 : Int), e + dropBits⟩

/-- The constant 0.66f, that is 11072963 * 2 ^ (-24). -/
def c066 : F32 := ⟨11072963, -24⟩

/-- The exact product of two single precision values. -/
def F32.mulExact (x y : F32) : Int × Int := (x.mant * y.mant, x.expo + y.expo)

/-- The exact value `m * 2 ^ e - 48`, as significand and exponent. -/
def sub48Exact (m e : Int) : Int × Int :=
  let e0 := min e 4
  (m * 2 ^ (e - e0).toNat - 3 * 2 ^ (4 - e0).toNat, e0)

/-- The single precision value of `0.66f * volume - 48.0f`; with `contract` the compiler
has fused the product and the difference into one rounding. -/
def volumeValue (contract : Bool) (volume : F32) : Option F32 :=
  let p := F32.mulExact c066 volume
  if contract then
    F32.round (sub48Exact p.1 p.2).1 (sub48Exact p.1 p.2).2
  else
    match F32.round p.1 p.2 with
    | none => none
    | some x => F32.round (sub48Exact x.mant x.expo).1 (sub48Exact x.mant x.expo).2

/-- Conversion of a float to int: the fractional part is discarded; none (undefined) when
the result does not fit in 32 bits. -/
def F32.toInt (x : F32) : Option Int :=
  let t : Int := if 0 ≤ x.expo then x.mant * 2 ^ x.expo.toNat
                 else Int.tdiv x.mant (2 ^ (-x.expo).toNat)
  if -2147483648 ≤ t ∧ t ≤ 2147483647 then some t else none

/-- The integer `int(0.66f * volume - 48.0f)` of set_volume. -/
def volumeArg (contract : Bool) (volume : F32) : Option Int :=
  match volumeValue contract volume with
  | none => none
  | some x => x.toInt

/-- The rational number a single precision value stands for. -/
def F32.toRat (x : F32) : ℚ := (x.mant : ℚ) * (2 : ℚ) ^ x.expo

/-! ## The controller -/

/-- Controller state. -/
structure Emic where
  /-- transmit pin -/
  tx_pin : Nat
  /-- receive pin -/
  rx_pin : Nat
  /-- the installed callback, none for nullptr -/
  on_speak : Option Nat
  /-- debug flag -/
  debug : Bool
  deriving DecidableEq, Repr

/-- Constructor. -/
def Emic.new (tx_gpio rx_gpio : Int) : Emic :=
  ⟨(tx_gpio % 256).toNat, (rx_gpio % 256).toNat, none, false⟩

/-- Operation set_debug: returns the previous flag. -/
def set_debug (st : Emic) (dbg : Bool) : Bool × Emic := (st.debug, { st with debug := dbg })

/-- Operation set_callback: returns the previous callback. -/
def set_callback (st : Emic) (cb : Option Nat) : Option Nat × Emic :=
  (st.on_speak, { st with on_speak := cb })

/-- The statement `if (on_speak) on_speak();`. -/
def fire (st : Emic) : List Event :=
  match st.on_speak with
  | some fn => [Event.callback fn]
  | none => []

/-- The statement `if (debug) printf(...)`. -/
def dbgLine (st : Emic) (d : Diag) : List Event :=
  if st.debug then [Event.log d] else []

/-- Operation write(char c). -/
def write_char (st : Emic) (c : Nat) : Run Int :=
  Run.done 1 (fire st ++ [Event.tx [c]])

/-- Operation write(data, sync, length); `data` is the buffer up to its terminating zero.
A length that reaches past the terminator reads outside the buffer. -/
def write_str (st : Emic) (data : List Nat) (sync : Bool) (length : Nat) (ack : Sched) :
    Run Int :=
  let len := if length = 0 then (cstr data).length else length
  if data.length + 1 < len then Run.undef (fire st)
  else
    Run.pre (fire st ++ [Event.tx ((data ++ [0]).take len)])
      (if sync then (waitfor COLON 0 true ack).bind (fun _ => Run.done (len : Int) [])
       else Run.done (len : Int) [])

/-- Operation say(data, wait).  The three writes are taken in the order they are written. -/
def say (st : Emic) (data : List Nat) (wait : Int) (env : Env) : Run Int :=
  let sent : Int := 1 + ((cstr data).length : Int) + 1
  Run.pre (fire st ++ dbgLine st Diag.sayLine
            ++ [Event.tx [83], Event.tx (cstr data), Event.tx [13]])
    (if SYNC = wait then (waitfor COLON 0 true env.ack).bind (fun _ => Run.done sent [])
     else (read_and_show wait env.relay).bind (fun _ => Run.done sent []))

/-- Operation demo(which, wait). -/
def demo (st : Emic) (which : Int) (wait : Int) (env : Env) : Run Unit :=
  Run.pre (dbgLine st Diag.demoLine ++ [Event.tx [68, digitByte which, 13]])
    (if SYNC = wait then (waitfor COLON 0 true env.ack).bind (fun _ => Run.done () [])
     else read_and_show wait env.relay)

/-- Operation stop_playback(sync). -/
def stop_playback (st : Emic) (sync : Bool) (env : Env) : Run Unit :=
  Run.pre (dbgLine st Diag.stopLine ++ [Event.tx [88]])
    (if sync then (waitfor COLON 1000 true env.ack).bind (fun _ => Run.done () [])
     else read_and_show SETTLE_TIME env.relay)

/-- Operation toggle_pause(sync). -/
def toggle_pause (st : Emic) (sync : Bool) (env : Env) : Run Unit :=
  Run.pre (dbgLine st Diag.pauseLine ++ [Event.tx [90]])
    (if sync then (waitfor COLON 1000 true env.ack).bind (fun _ => Run.done () [])
     else read_and_show SETTLE_TIME env.relay)

/-- Operation set_voice(which, sync); the sum '0' + which is undefined when it overflows. -/
def set_voice (st : Emic) (which : Int) (sync : Bool) (env : Env) : Run Unit :=
  if 2147483647 < 48 + which then Run.undef (dbgLine st Diag.voiceLine)
  else
    Run.pre (dbgLine st Diag.voiceLine ++ [Event.tx [78, digitByte which, 13]])
      (if sync then (waitfor COLON 1000 true env.ack).bind (fun _ => Run.done () [])
       else read_and_show SETTLE_TIME env.relay)

/-- Operation set_volume(volume, sync).  The conversion to int is undefined when the value
does not fit; sprintf overruns the 8-byte buffer when the text and its terminator do not
fit. -/
def set_volume (st : Emic) (contract : Bool) (volume : F32) (sync : Bool) (env : Env) :
    Run Unit :=
  match volumeArg contract volume with
  | none => Run.undef []
  | some vol =>
    if 8 < ([86] ++ fmtInt vol ++ [13]).length + 1 then Run.undef (dbgLine st Diag.volumeLine)
    else
      Run.pre (dbgLine st Diag.volumeLine ++ [Event.tx ([86] ++ fmtInt vol ++ [13])])
        (if sync then (waitfor COLON 1000 true env.ack).bind (fun _ => Run.done () [])
         else read_and_show SETTLE_TIME env.relay)

/-- Operation set_words_per_minute(wpm, sync); sprintf overruns the 8-byte buffer when the
text and its terminator do not fit. -/
def set_words_per_minute (st : Emic) (wpm : Int) (sync : Bool) (env : Env) : Run Unit :=
  if 8 < ([87] ++ fmtInt wpm ++ [13]).length + 1 then Run.undef (dbgLine st Diag.wpmLine)
  else
    Run.pre (dbgLine st Diag.wpmLine ++ [Event.tx ([87] ++ fmtInt wpm ++ [13])])
      (if sync then (waitfor COLON 1000 true env.ack).bind (fun _ => Run.done () [])
       else read_and_show SETTLE_TIME env.relay)

/-- Operation set_parser(parser, sync). -/
def set_parser_sel (st : Emic) (parser : Int) (sync : Bool) (env : Env) : Run Unit :=
  if 2147483647 < 48 + parser then Run.undef (dbgLine st Diag.parserLine)
  else
    Run.pre (dbgLine st Diag.parserLine ++ [Event.tx [80, digitByte parser, 13]])
      (if sync then (waitfor COLON 1000 true env.ack).bind (fun _ => Run.done () [])
       else read_and_show SETTLE_TIME env.relay)

/-- Operation set_language(language, sync). -/
def set_language (st : Emic) (language : Int) (sync : Bool) (env : Env) : Run Unit :=
  if 2147483647 < 48 + language then Run.undef (dbgLine st Diag.languageLine)
  else
    Run.pre (dbgLine st Diag.languageLine ++ [Event.tx [76, digitByte language, 13]])
      (if sync then (waitfor COLON 1000 true env.ack).bind (fun _ => Run.done () [])
       else read_and_show SETTLE_TIME env.relay)

/-- Operation set_default(sync). -/
def set_default (st : Emic) (sync : Bool) (env : Env) : Run Unit :=
  Run.pre (dbgLine st Diag.defaultLine ++ [Event.tx [82, 13]])
    (if sync then (waitfor COLON 1000 true env.ack).bind (fun _ => Run.done () [])
     else read_and_show SETTLE_TIME env.relay)

/-- Operation get_current(sync). -/
def get_current (st : Emic) (sync : Bool) (env : Env) : Run Unit :=
  Run.pre (dbgLine st Diag.currentLine ++ [Event.tx [67, 13]])
    (if sync then (waitfor COLON 1000 true env.ack).bind (fun _ => Run.done () [])
     else read_and_show SETTLE_TIME env.relay)

/-- Operation get_info(sync). -/
def get_info (st : Emic) (sync : Bool) (env : Env) : Run Unit :=
  Run.pre (dbgLine st Diag.infoLine ++ [Event.tx [73, 13]])
    (if sync then (waitfor COLON 1000 true env.ack).bind (fun _ => Run.done () [])
     else read_and_show SETTLE_TIME env.relay)

/-- Operation get_help(sync). -/
def get_help (st : Emic) (sync : Bool) (env : Env) : Run Unit :=
  Run.pre (dbgLine st Diag.helpLine ++ [Event.tx [72, 13]])
    (if sync then (waitfor COLON 1000 true env.ack).bind (fun _ => Run.done () [])
     else read_and_show SETTLE_TIME env.relay)

/-- Operation setup(); the two commands it issues meet the surroundings `e1` and `e2`. -/
def setup (st : Emic) (e1 e2 : Env) : Run Bool :=
  Run.pre [Event.uartEnd, Event.uartBegin 9600 st.rx_pin st.tx_pin,
           Event.setRxBufferSize 1024, Event.uartFlush]
    ((stop_playback st true e1).bind (fun _ =>
      (set_parser_sel st DECTALK true e2).bind (fun _ => Run.done true [])))

/-! ## Timed schedules and the behaviour the specification describes -/

/-- A byte reaching the receive buffer of the UART at a given time. -/
structure Arrival where
  /-- time of arrival, milliseconds since boot -/
  time : Nat
  /-- the byte -/
  byte : Nat
  deriving DecidableEq, Repr

/-- The times at which one iteration of the loop in waitfor acts. -/
structure LoopTimes where
  /-- time at which uart.available() is evaluated -/
  pollAt : Nat
  /-- time at which the loop test calls millis() -/
  testAt : Nat
  deriving DecidableEq, Repr

/-- What the loop in waitfor meets when the bytes of `arrivals` (oldest first) reach the
receive buffer at their times and the iterations act at the times of `times`: a poll finds
the oldest unread byte when that byte has arrived by then. -/
def observe : List Arrival → List LoopTimes → List Step
  | _, [] => []
  | [], t :: ts => ⟨none, t.testAt⟩ :: observe [] ts
  | a :: more, t :: ts =>
    if a.time ≤ t.pollAt then ⟨some a.byte, t.testAt⟩ :: observe more ts
    else ⟨none, t.testAt⟩ :: observe (a :: more) ts

/-- Time does not run backwards through the iterations of a loop entered at `from`. -/
def wellTimed : Nat → List LoopTimes → Bool
  | _, [] => true
  | t0, t :: ts => decide (t0 ≤ t.pollAt) && decide (t.pollAt ≤ t.testAt) && wellTimed t.testAt ts

/-- The outcome the specification gives to the strict wait waitFor(x, T, false) called at
time `callAt`: decided by the first byte to arrive, mismatched or matched when that byte
arrives within T milliseconds of the call, timed-out when no byte arrives within T. -/
def specStrictOutcome (x : Int) (T : Nat) (callAt : Nat) : List Arrival → Int
  | [] => EMIC_TMOUT
  | a :: _ =>
    if a.time ≤ callAt + T then (if (a.byte : Int) = x then EMIC_OK else EMIC_FAIL)
    else EMIC_TMOUT

/-- An iteration that ends neither with a colon nor with the deadline reached. -/
def stillWaiting (timer : Nat) (s : Step) : Bool :=
  decide (s.avail ≠ some 58) && decide (millis s.clock < timer)

/-- The bounded tolerant acknowledgment wait as the specification describes it: bytes other
than the colon are discarded without ending the wait, the wait ends with the first colon,
and it ends anyway at the first loop test that finds the deadline reached. -/
def specAckWait (timer : Nat) (steps : List Step) : Run Unit :=
  match steps.dropWhile (stillWaiting timer) with
  | [] => Run.pending (rxs (steps.takeWhile (stillWaiting timer)))
  | s :: _ =>
    if s.avail = some 58 then
      Run.done () (rxs (steps.takeWhile (stillWaiting timer)) ++ [Event.rx 58])
    else Run.done () (rxs (steps.takeWhile (stillWaiting timer) ++ [s]))

/-- The settings commands, with their arguments. -/
inductive Setting where
  | stop_playback
  | toggle_pause
  | set_voice (which : Int)
  | set_volume (contract : Bool) (volume : F32)
  | set_words_per_minute (wpm : Int)
  | set_parser_sel (parser : Int)
  | set_language (language : Int)
  | set_default
  | get_current
  | get_info
  | get_help
  deriving DecidableEq, Repr

/-- Running a settings command. -/
def Setting.run (st : Emic) (sync : Bool) (env : Env) : Setting → Run Unit
  | Setting.stop_playback => ESP32Emic2.stop_playback st sync env
  | Setting.toggle_pause => ESP32Emic2.toggle_pause st sync env
  | Setting.set_voice which => ESP32Emic2.set_voice st which sync env
  | Setting.set_volume contract volume => ESP32Emic2.set_volume st contract volume sync env
  | Setting.set_words_per_minute wpm => ESP32Emic2.set_words_per_minute st wpm sync env
  | Setting.set_parser_sel parser => ESP32Emic2.set_parser_sel st parser sync env
  | Setting.set_language language => ESP32Emic2.set_language st language sync env
  | Setting.set_default => ESP32Emic2.set_default st sync env
  | Setting.get_current => ESP32Emic2.get_current st sync env
  | Setting.get_info => ESP32Emic2.get_info st sync env
  | Setting.get_help => ESP32Emic2.get_help st sync env

/-- The argument round(0.66 * volume - 48) of the specification, rounding to the nearest
integer (halves away from zero), computed exactly on the value `mant * 2 ^ expo`. -/
def specVolumeArg (volume : F32) : Int :=
  let num : Int := if 0 ≤ volume.expo then 66 * volume.mant * 2 ^ volume.expo.toNat - 4800
                   else 66 * volume.mant - 4800 * 2 ^ (-volume.expo).toNat
  let den : Int := if 0 ≤ volume.expo then 100 else 100 * 2 ^ (-volume.expo).toNat
  if 0 ≤ num then (2 * num + den) / (2 * den) else -((2 * (-num) + den) / (2 * den))

/-- The console input offered on these iterations of the relay loop, in order. -/
def consoleInput : List RelayStep → List Nat
  | [] => []
  | s :: rest => s.console ++ consoleInput rest

/-- The number a list of ASCII decimal digits stands for. -/
def decValue (ds : List Nat) : Nat := ds.foldl (fun acc d => 10 * acc + (d - 48)) 0

/-- The integer a decimal text with an optional minus sign stands for. -/
def parseInt : List Nat → Int
  | 45 :: ds => -(decValue ds : Int)
  | ds => (decValue ds : Int)

/-! ## Runs and traces: lemmas -/

@[simp]
theorem Run.pre_nil {α : Type} (r : Run α) : Run.pre [] r = r := by
  cases r <;> rfl

@[simp]
theorem Run.pre_pre {α : Type} (a b : List Event) (r : Run α) :
    Run.pre a (Run.pre b r) = Run.pre (a ++ b) r := by
  cases r <;> simp [Run.pre]

@[simp]
theorem Run.trace_pre {α : Type} (a : List Event) (r : Run α) :
    (Run.pre a r).trace = a ++ r.trace := by
  cases r <;> rfl

theorem Run.bind_pre {α β : Type} (a : List Event) (r : Run α) (f : α → Run β) :
    (Run.pre a r).bind f = Run.pre a (r.bind f) := by
  cases r with
  | done v t =>
    show Run.pre (a ++ t) (f v) = Run.pre a (Run.pre t (f v))
    rw [Run.pre_pre]
  | pending t => rfl
  | undef t => rfl

theorem Run.trace_bind_done {α β : Type} (r : Run α) (b : β) :
    (r.bind (fun _ => Run.done b [])).trace = r.trace := by
  cases r <;> simp [Run.bind, Run.pre, Run.trace]

@[simp]
theorem wire_append (a b : List Event) : wire (a ++ b) = wire a ++ wire b := by
  induction a with
  | nil => rfl
  | cons e a ih => cases e <;> simp [wire, ih]

@[simp]
theorem callbacks_append (a b : List Event) :
    callbacks (a ++ b) = callbacks a + callbacks b := by
  induction a with
  | nil => simp [callbacks]
  | cons e a ih =>
    cases e
    all_goals simp [callbacks, ih]
    all_goals omega

@[simp]
theorem wire_dbgLine (st : Emic) (d : Diag) : wire (dbgLine st d) = [] := by
  unfold dbgLine; split <;> rfl

@[simp]
theorem callbacks_dbgLine (st : Emic) (d : Diag) : callbacks (dbgLine st d) = 0 := by
  unfold dbgLine; split <;> rfl

@[simp]
theorem wire_fire (st : Emic) : wire (fire st) = [] := by
  unfold fire; split <;> rfl

@[simp]
theorem wire_rxs (steps : List Step) : wire (rxs steps) = [] := by
  induction steps with
  | nil => rfl
  | cons s rest ih => cases h : s.avail <;> simp [rxs, h, wire, ih]

@[simp]
theorem callbacks_rxs (steps : List Step) : callbacks (rxs steps) = 0 := by
  induction steps with
  | nil => rfl
  | cons s rest ih => cases h : s.avail <;> simp [rxs, h, callbacks, ih]

/-! ## Acknowledgment wait: lemmas -/

theorem rxs_append (xs ys : List Step) : rxs (xs ++ ys) = rxs xs ++ rxs ys := by
  induction xs with
  | nil => rfl
  | cons s xs ih =>
    cases h : s.avail <;> simp [rxs, h, ih]

theorem waitforLoop_unbounded_quiet (timer : Nat) (steps : List Step)
    (h : ∀ p ∈ steps, p.avail ≠ some 58) :
    waitforLoop 58 0 true timer steps = Run.pending (rxs steps) := by
  induction steps with
  | nil => rfl
  | cons s rest ih =>
    have hs : s.avail ≠ some 58 := h s (List.mem_cons_self _ _)
    have hr := ih (fun p hp => h p (List.mem_cons_of_mem _ hp))
    cases ha : s.avail with
    | none => simp [waitforLoop, rxs, ha, hr]
    | some b =>
      have hb : (b : Int) ≠ 58 := by
        intro hb
        apply hs
        rw [ha]
        congr 1
        exact_mod_cast hb
      simp [waitforLoop, rxs, ha, hb, hr, Run.pre]

theorem waitforLoop_unbounded_colon (timer : Nat) (pre : List Step) (s : Step) (rest : List Step)
    (h : ∀ p ∈ pre, p.avail ≠ some 58) (hs : s.avail = some 58) :
    waitforLoop 58 0 true timer (pre ++ s :: rest)
      = Run.done EMIC_OK (rxs pre ++ [Event.rx 58]) := by
  induction pre with
  | nil => simp [waitforLoop, rxs, hs]
  | cons p pre ih =>
    have hp : p.avail ≠ some 58 := h p (List.mem_cons_self _ _)
    have hr := ih (fun q hq => h q (List.mem_cons_of_mem _ hq))
    cases ha : p.avail with
    | none => simp [waitforLoop, rxs, ha, hr]
    | some b =>
      have hb : (b : Int) ≠ 58 := by
        intro hb
        apply hp
        rw [ha]
        congr 1
        exact_mod_cast hb
      simp [waitforLoop, rxs, ha, hb, hr, Run.pre]

theorem waitforLoop_unbounded_value (timer : Nat) (steps : List Step) (v : Int) (t : List Event)
    (h : waitforLoop 58 0 true timer steps = Run.done v t) : v = EMIC_OK := by
  induction steps generalizing v t with
  | nil => simp [waitforLoop] at h
  | cons s rest ih =>
    cases ha : s.avail with
    | none =>
      simp [waitforLoop, ha] at h
      exact ih v t h
    | some b =>
      by_cases hb : (b : Int) = 58
      · simp [waitforLoop, ha, hb] at h
        exact h.1.symm
      · simp only [waitforLoop, ha, hb, if_false, true_or, if_true] at h
        cases hw : waitforLoop 58 0 true timer rest with
        | done v2 t2 =>
          rw [hw] at h
          simp [Run.pre] at h
          rw [← h.1]
          exact ih v2 t2 hw
        | pending t2 => rw [hw] at h; simp [Run.pre] at h
        | undef t2 => rw [hw] at h; simp [Run.pre] at h

theorem waitforLoop_tolerant_eq_spec (timer : Nat) (T : Int) (hT : T ≠ 0) (steps : List Step) :
    (waitforLoop 58 T true timer steps).bind (fun _ => Run.done () [])
      = specAckWait timer steps := by
  induction steps with
  | nil => rfl
  | cons s rest ih =>
    unfold specAckWait at ih ⊢
    cases ha : s.avail with
    | none =>
      by_cases hc : millis s.clock < timer
      · simp only [waitforLoop, ha, hT, hc, false_or, if_true, List.dropWhile, List.takeWhile,
          stillWaiting, ne_eq, not_false_eq_true, decide_True, Bool.and_self, rxs, reduceCtorEq]
        exact ih
      · simp [waitforLoop, ha, hT, hc, List.dropWhile, List.takeWhile, stillWaiting, rxs,
          Run.bind, Run.pre]
    | some b =>
      by_cases hb : b = 58
      · subst hb
        simp [waitforLoop, ha, List.dropWhile, List.takeWhile, stillWaiting, rxs,
          Run.bind, Run.pre]
      · have hb2 : (b : Int) ≠ 58 := by exact_mod_cast hb
        by_cases hc : millis s.clock < timer
        · simp only [waitforLoop, ha, hT, hc, hb2, hb, false_or, if_true, if_false,
            List.dropWhile, List.takeWhile, stillWaiting, ne_eq, not_false_eq_true, decide_True,
            Bool.and_self, rxs, Option.some.injEq, Bool.true_eq_false]
          rw [Run.bind_pre, ih]
          cases rest.dropWhile (stillWaiting timer) with
          | nil => simp [Run.pre]
          | cons q more =>
            by_cases hq : q.avail = some 58
            · simp [Run.pre, hq]
            · simp [Run.pre, hq, rxs_append]
        · simp [waitforLoop, ha, hT, hc, hb2, hb, List.dropWhile, List.takeWhile,
            stillWaiting, rxs, Run.bind, Run.pre]

theorem specAckWait_returns (timer : Nat) (steps : List Step)
    (h : ∃ s ∈ steps, s.avail = some 58 ∨ timer ≤ millis s.clock) :
    ∃ waited, waited <+: steps ∧ specAckWait timer steps = Run.done () (rxs waited) := by
  induction steps with
  | nil => simp at h
  | cons s rest ih =>
    unfold specAckWait at ih ⊢
    by_cases hw : stillWaiting timer s = true
    · have hrest : ∃ s ∈ rest, s.avail = some 58 ∨ timer ≤ millis s.clock := by
        obtain ⟨q, hq, hq2⟩ := h
        rcases List.mem_cons.mp hq with rfl | hq
        · simp [stillWaiting] at hw
          rcases hq2 with hq2 | hq2
          · exact absurd hq2 hw.1
          · omega
        · exact ⟨q, hq, hq2⟩
      obtain ⟨waited, hpre, hrun⟩ := ih hrest
      simp only [List.dropWhile, List.takeWhile, hw]
      cases hd : rest.dropWhile (stillWaiting timer) with
      | nil => rw [hd] at hrun; simp at hrun
      | cons q more =>
        rw [hd] at hrun
        simp only at hrun ⊢
        by_cases hq : q.avail = some 58
        · simp only [hq, if_true] at hrun ⊢
          refine ⟨s :: waited, (List.prefix_cons_inj s).mpr hpre, ?_⟩
          cases hs : s.avail with
          | none => simp [rxs, hs] at hrun ⊢; exact hrun
          | some b => simp [rxs, hs] at hrun ⊢; exact hrun
        · simp only [hq, if_false] at hrun ⊢
          refine ⟨s :: waited, (List.prefix_cons_inj s).mpr hpre, ?_⟩
          cases hs : s.avail with
          | none => simp [rxs, hs] at hrun ⊢; exact hrun
          | some b => simp [rxs, hs] at hrun ⊢; exact hrun
    · simp only [List.dropWhile, List.takeWhile, hw]
      by_cases hq : s.avail = some 58
      · refine ⟨[s], by simp, ?_⟩
        simp [hq, rxs]
      · refine ⟨[s], by simp, ?_⟩
        simp [hq]

theorem deadline_no_wrap (start T : Nat) (h : millis start + T < 4294967296) :
    deadline start (T : Int) = millis start + T := by
  unfold deadline toULong
  have h1 : ((T : Int) % 4294967296).toNat = T := by omega
  rw [h1]
  exact Nat.mod_eq_of_lt h

theorem callbacks_drain (chunks : List (List Nat)) : callbacks (drain chunks).1 = 0 := by
  induction chunks with
  | nil => rfl
  | cons ch more ih =>
    unfold drain
    split
    · simp [callbacks, ih]
    · rfl

theorem wire_drain (chunks : List (List Nat)) : wire (drain chunks).1 = [] := by
  induction chunks with
  | nil => rfl
  | cons ch more ih =>
    unfold drain
    split
    · simp [wire, ih]
    · rfl

theorem callbacks_relayEvents (s : RelayStep) : callbacks (relayEvents s) = 0 := by
  unfold relayEvents
  simp only [callbacks_append, callbacks_drain]
  split <;> split <;> rfl

theorem wire_relayEvents (s : RelayStep) : wire (relayEvents s) = s.console := by
  unfold relayEvents
  simp only [wire_append, wire_drain, List.nil_append]
  have h1 : wire (if (drain s.chunks).2 = true then [Event.echo [10]] else []) = [] := by
    split <;> rfl
  rw [h1]
  by_cases hc : 0 < s.console.length
  · simp [hc, wire]
  · have : s.console = [] := by
      cases hs : s.console with
      | nil => rfl
      | cons a l => rw [hs] at hc; simp at hc
    simp [this, wire]

theorem callbacks_relayLoop (timer : Nat) (steps : List RelayStep) :
    callbacks (relayLoop timer steps).trace = 0 := by
  induction steps with
  | nil => rfl
  | cons s rest ih =>
    unfold relayLoop
    split
    · simp [callbacks_relayEvents, ih]
    · simp [Run.trace, callbacks_relayEvents]

theorem wire_relayLoop_quiet (timer : Nat) (steps : List RelayStep)
    (h : ∀ s ∈ steps, s.console = []) : wire (relayLoop timer steps).trace = [] := by
  induction steps with
  | nil => rfl
  | cons s rest ih =>
    have hs : s.console = [] := h s (List.mem_cons_self _ _)
    have hr := ih (fun q hq => h q (List.mem_cons_of_mem _ hq))
    unfold relayLoop
    split
    · simp [wire_relayEvents, hs, hr]
    · simp [Run.trace, wire_relayEvents, hs]

theorem callbacks_waitforLoop (c T : Int) (ignore : Bool) (timer : Nat) (steps : List Step) :
    callbacks (waitforLoop c T ignore timer steps).trace = 0 := by
  induction steps with
  | nil => rfl
  | cons s rest ih =>
    unfold waitforLoop
    cases s.avail with
    | none =>
      simp only
      split
      · exact ih
      · rfl
    | some b =>
      simp only
      split
      · rfl
      · split
        · rfl
        · split
          · simp [callbacks, ih]
          · rfl

theorem wire_waitforLoop (c T : Int) (ignore : Bool) (timer : Nat) (steps : List Step) :
    wire (waitforLoop c T ignore timer steps).trace = [] := by
  induction steps with
  | nil => rfl
  | cons s rest ih =>
    unfold waitforLoop
    cases s.avail with
    | none =>
      simp only
      split
      · exact ih
      · rfl
    | some b =>
      simp only
      split
      · rfl
      · split
        · rfl
        · split
          · simp [wire, ih]
          · rfl

theorem waitforLoop_strict_quiet (x T : Int) (timer : Nat) (quiet : List Step)
    (hq : ∀ p ∈ quiet, p.avail = none ∧ millis p.clock < timer) :
    waitforLoop x T false timer quiet = Run.pending [] := by
  induction quiet with
  | nil => rfl
  | cons p quiet ih =>
    obtain ⟨ha, hc⟩ := hq p (List.mem_cons_self _ _)
    have hr := ih (fun q hq2 => hq q (List.mem_cons_of_mem _ hq2))
    simp [waitforLoop, ha, hc, hr]

theorem waitforLoop_strict_byte (x T : Int) (timer : Nat) (quiet : List Step)
    (s : Step) (rest : List Step) (b : Nat)
    (hq : ∀ p ∈ quiet, p.avail = none ∧ millis p.clock < timer) (hs : s.avail = some b) :
    waitforLoop x T false timer (quiet ++ s :: rest)
      = Run.done (if (b : Int) = x then EMIC_OK else EMIC_FAIL) [Event.rx b] := by
  induction quiet with
  | nil =>
    by_cases hb : (b : Int) = x
    · simp [waitforLoop, hs, hb]
    · simp [waitforLoop, hs, hb]
  | cons p quiet ih =>
    obtain ⟨ha, hc⟩ := hq p (List.mem_cons_self _ _)
    have hr := ih (fun q hq2 => hq q (List.mem_cons_of_mem _ hq2))
    simp [waitforLoop, ha, hc, hr]

theorem waitforLoop_strict_timeout (x T : Int) (timer : Nat) (hT : T ≠ 0) (quiet : List Step)
    (s : Step) (rest : List Step)
    (hq : ∀ p ∈ quiet, p.avail = none ∧ millis p.clock < timer) (hs : s.avail = none)
    (hc : timer ≤ millis s.clock) :
    waitforLoop x T false timer (quiet ++ s :: rest) = Run.done EMIC_TMOUT [] := by
  induction quiet with
  | nil => simp [waitforLoop, hs, hT, not_lt.mpr hc]
  | cons p quiet ih =>
    obtain ⟨ha, hc2⟩ := hq p (List.mem_cons_self _ _)
    have hr := ih (fun q hq2 => hq q (List.mem_cons_of_mem _ hq2))
    simp [waitforLoop, ha, hc2, hr]

theorem callbacks_ackWait (T : Int) (ack : Sched) :
    callbacks ((waitfor COLON T true ack).bind (fun _ => Run.done () [])).trace = 0 := by
  rw [Run.trace_bind_done]
  exact callbacks_waitforLoop _ _ _ _ _

theorem wire_ackWait (T : Int) (ack : Sched) :
    wire ((waitfor COLON T true ack).bind (fun _ => Run.done () [])).trace = [] := by
  rw [Run.trace_bind_done]
  exact wire_waitforLoop _ _ _ _ _

theorem callbacks_read_and_show (w : Int) (relay : RelaySched) :
    callbacks (read_and_show w relay).trace = 0 :=
  callbacks_relayLoop _ _

theorem callbacks_settle (sync : Bool) (env : Env) :
    callbacks (if sync then (waitfor COLON 1000 true env.ack).bind (fun _ => Run.done () [])
      else read_and_show SETTLE_TIME env.relay).trace = 0 := by
  cases sync
  · exact callbacks_read_and_show _ _
  · exact callbacks_ackWait _ _

theorem callbacks_setting (st : Emic) (sync : Bool) (env : Env) (c : Setting) :
    callbacks (c.run st sync env).trace = 0 := by
  have hs := callbacks_settle sync env
  cases c with
  | stop_playback =>
    simp [Setting.run, ESP32Emic2.stop_playback, callbacks, hs]
  | toggle_pause =>
    simp [Setting.run, ESP32Emic2.toggle_pause, callbacks, hs]
  | set_voice which =>
    simp only [Setting.run, ESP32Emic2.set_voice]
    split
    · simp [Run.trace]
    · simp [callbacks, hs]
  | set_volume contract volume =>
    simp only [Setting.run, ESP32Emic2.set_volume]
    cases volumeArg contract volume with
    | none => rfl
    | some vol =>
      simp only
      split
      · simp [Run.trace]
      · simp [callbacks, hs]
  | set_words_per_minute wpm =>
    simp only [Setting.run, ESP32Emic2.set_words_per_minute]
    split
    · simp [Run.trace]
    · simp [callbacks, hs]
  | set_parser_sel parser =>
    simp only [Setting.run, ESP32Emic2.set_parser_sel]
    split
    · simp [Run.trace]
    · simp [callbacks, hs]
  | set_language language =>
    simp only [Setting.run, ESP32Emic2.set_language]
    split
    · simp [Run.trace]
    · simp [callbacks, hs]
  | set_default =>
    simp [Setting.run, ESP32Emic2.set_default, callbacks, hs]
  | get_current =>
    simp [Setting.run, ESP32Emic2.get_current, callbacks, hs]
  | get_info =>
    simp [Setting.run, ESP32Emic2.get_info, callbacks, hs]
  | get_help =>
    simp [Setting.run, ESP32Emic2.get_help, callbacks, hs]

theorem callbacks_demo (st : Emic) (which wait : Int) (env : Env) :
    callbacks (demo st which wait env).trace = 0 := by
  unfold demo
  split
  · simp [callbacks, callbacks_ackWait]
  · simp [callbacks, callbacks_read_and_show]

theorem digitByte_digit (k : Nat) (hk : k ≤ 9) : digitByte (k : Int) = 48 + k := by
  unfold digitByte
  omega

theorem wire_relayLoop (timer : Nat) (steps : List RelayStep) :
    ∃ ran, ran <+: steps ∧ wire (relayLoop timer steps).trace = consoleInput ran := by
  induction steps with
  | nil => exact ⟨[], List.prefix_rfl, rfl⟩
  | cons s rest ih =>
    obtain ⟨ran, hp, hw⟩ := ih
    unfold relayLoop
    split
    · refine ⟨s :: ran, (List.prefix_cons_inj s).mpr hp, ?_⟩
      simp [wire_relayEvents, hw, consoleInput]
    · refine ⟨[s], by simp, ?_⟩
      simp [Run.trace, wire_relayEvents, consoleInput]

theorem consoleInput_quiet (ran : List RelayStep) (h : ∀ s ∈ ran, s.console = []) :
    consoleInput ran = [] := by
  induction ran with
  | nil => rfl
  | cons s rest ih =>
    simp [consoleInput, h s (List.mem_cons_self _ _),
      ih (fun q hq => h q (List.mem_cons_of_mem _ hq))]

theorem wire_index_sync (st : Emic) (d : Diag) (bytes : List Nat) (T : Int) (ack : Sched) :
    wire (Run.pre (dbgLine st d ++ [Event.tx bytes])
      ((waitfor COLON T true ack).bind (fun _ => Run.done () []))).trace = bytes := by
  simp [wire, wire_ackWait]

theorem wire_index_relay (st : Emic) (d : Diag) (bytes : List Nat) (w : Int)
    (relay : RelaySched) :
    wire (Run.pre (dbgLine st d ++ [Event.tx bytes]) (read_and_show w relay)).trace
      = bytes ++ wire (read_and_show w relay).trace := by
  simp [wire]

/-! ## Decimal text and truncation: lemmas -/

theorem decDigits_ne_nil (fuel n : Nat) : decDigits (fuel + 1) n ≠ [] := by
  unfold decDigits
  split <;> simp

theorem decDigits_length_le_iff (fuel : Nat) :
    ∀ (n k : Nat), n < 10 ^ fuel → 1 ≤ k → ((decDigits fuel n).length ≤ k ↔ n < 10 ^ k) := by
  induction fuel with
  | zero =>
    intro n k hn hk
    have h0 : n = 0 := by simpa using hn
    subst h0
    simp [decDigits]
  | succ fuel ih =>
    intro n k hn hk
    unfold decDigits
    by_cases hlt : n < 10
    · rw [if_pos hlt]
      have h10 : 10 ^ 1 ≤ 10 ^ k := Nat.pow_le_pow_right (by decide) hk
      simp only [List.length_singleton]
      constructor
      · intro _; omega
      · intro _; exact hk
    · rw [if_neg hlt]
      have hdiv : n / 10 < 10 ^ fuel := by
        apply Nat.div_lt_of_lt_mul
        rw [pow_succ] at hn
        omega
      simp only [List.length_append, List.length_singleton]
      cases k with
      | zero => omega
      | succ k =>
        cases k with
        | zero =>
          constructor
          · intro hl
            exfalso
            cases fuel with
            | zero => simp at hdiv; omega
            | succ f =>
              have := decDigits_ne_nil f (n / 10)
              have hl0 : (decDigits (f + 1) (n / 10)).length = 0 := by omega
              exact this (List.length_eq_zero.mp hl0)
          · intro h; simp at h; omega
        | succ k =>
          have := ih (n / 10) (k + 1) hdiv (by omega)
          rw [Nat.succ_le_succ_iff, this, Nat.div_lt_iff_lt_mul (by decide), pow_succ 10 (k + 1)]

theorem decValue_append (xs : List Nat) (d : Nat) :
    decValue (xs ++ [d]) = 10 * decValue xs + (d - 48) := by
  simp [decValue, List.foldl_append]

theorem decValue_decDigits (fuel : Nat) : ∀ n, n < 10 ^ fuel → decValue (decDigits fuel n) = n := by
  induction fuel with
  | zero =>
    intro n hn
    have h0 : n = 0 := by simpa using hn
    subst h0
    rfl
  | succ fuel ih =>
    intro n hn
    unfold decDigits
    by_cases hlt : n < 10
    · rw [if_pos hlt]
      simp [decValue]
    · rw [if_neg hlt]
      have hdiv : n / 10 < 10 ^ fuel := by
        apply Nat.div_lt_of_lt_mul
        rw [pow_succ] at hn
        omega
      rw [decValue_append, ih _ hdiv]
      omega

theorem decDigits_ge (fuel : Nat) : ∀ n, ∀ d ∈ decDigits fuel n, 48 ≤ d := by
  induction fuel with
  | zero => intro n d hd; simp [decDigits] at hd
  | succ fuel ih =>
    intro n d hd
    unfold decDigits at hd
    split at hd
    · simp at hd; omega
    · rcases List.mem_append.mp hd with h | h
      · exact ih _ d h
      · simp at h; omega

theorem parseInt_fmtInt (n : Int) (hlo : -2147483648 ≤ n) (hhi : n ≤ 2147483647) :
    parseInt (fmtInt n) = n := by
  have habs : n.natAbs < 10 ^ 10 := by omega
  have hv := decValue_decDigits 10 n.natAbs habs
  unfold fmtInt
  by_cases hneg : n < 0
  · rw [if_pos hneg]
    simp only [parseInt, hv]
    omega
  · rw [if_neg hneg]
    have hge := decDigits_ge 10 n.natAbs
    cases hl : decDigits 10 n.natAbs with
    | nil =>
      rw [hl] at hv
      simp [decValue] at hv
      simp [parseInt, decValue]
      omega
    | cons d ds =>
      rw [hl] at hv hge
      have hd : 48 ≤ d := hge d (List.mem_cons_self _ _)
      have hne : d ≠ 45 := by omega
      unfold parseInt
      split
      · rename_i heq
        simp at heq
        exact absurd heq.1 hne
      · rw [hv]
        omega

theorem fmtInt_length_le_iff (n : Int) (hlo : -2147483648 ≤ n) (hhi : n ≤ 2147483647) :
    (fmtInt n).length ≤ 5 ↔ (-9999 ≤ n ∧ n ≤ 99999) := by
  have habs : n.natAbs < 10 ^ 10 := by omega
  unfold fmtInt
  by_cases hneg : n < 0
  · rw [if_pos hneg]
    have := decDigits_length_le_iff 10 n.natAbs 4 habs (by decide)
    simp only [List.length_cons]
    rw [Nat.succ_le_succ_iff, this]
    omega
  · rw [if_neg hneg]
    rw [decDigits_length_le_iff 10 n.natAbs 5 habs (by decide)]
    omega

theorem toInt_trunc_aux (m : Int) (k : Nat) :
    Int.tdiv m (2 ^ k) = if 0 ≤ (m : ℚ) / (2 : ℚ) ^ k then ⌊(m : ℚ) / (2 : ℚ) ^ k⌋
      else ⌈(m : ℚ) / (2 : ℚ) ^ k⌉ := by
  have hpos : (0 : ℚ) < (2 : ℚ) ^ k := by positivity
  have hcast : ((2 : ℚ) ^ k) = (((2 ^ k : ℕ) : ℕ) : ℚ) := by push_cast; rfl
  have hd : (0 : Int) ≤ 2 ^ k := by positivity
  by_cases hm : 0 ≤ m
  · have h0 : (0 : ℚ) ≤ (m : ℚ) / (2 : ℚ) ^ k := div_nonneg (by exact_mod_cast hm) hpos.le
    rw [if_pos h0, Int.tdiv_eq_ediv hm hd, hcast, Rat.floor_intCast_div_natCast]
    push_cast
    rfl
  · have hm' : m < 0 := not_le.mp hm
    have h0 : ¬ (0 : ℚ) ≤ (m : ℚ) / (2 : ℚ) ^ k := by
      rw [not_le]
      exact div_neg_of_neg_of_pos (by exact_mod_cast hm') hpos
    rw [if_neg h0]
    have e1 : m = -(-m) := by ring
    have hn : 0 ≤ -m := by omega
    have e2 : ((m : ℚ) / (2 : ℚ) ^ k) = -(((-m : ℤ) : ℚ) / (2 : ℚ) ^ k) := by
      push_cast; ring
    rw [e2, Int.ceil_neg, hcast, Rat.floor_intCast_div_natCast]
    conv_lhs => rw [e1]
    rw [Int.neg_tdiv, Int.tdiv_eq_ediv hn hd]
    push_cast
    rfl

theorem F32.toInt_trunc (x : F32) (n : Int) (h : x.toInt = some n) :
    n = if 0 ≤ x.toRat then ⌊x.toRat⌋ else ⌈x.toRat⌉ := by
  unfold F32.toInt at h
  by_cases he : 0 ≤ x.expo
  · simp only [he, if_true] at h
    have hn : x.mant * 2 ^ x.expo.toNat = n := by
      split at h
      · exact Option.some.inj h
      · exact absurd h (by simp)
    have hr : x.toRat = ((x.mant * 2 ^ x.expo.toNat : ℤ) : ℚ) := by
      unfold F32.toRat
      have : x.expo = (x.expo.toNat : ℤ) := (Int.toNat_of_nonneg he).symm
      conv_lhs => rw [this, zpow_natCast]
      push_cast
      rfl
    rw [hr, hn]
    simp only [Int.floor_intCast, Int.ceil_intCast, ite_self]
  · simp only [he, if_false] at h
    have hn : Int.tdiv x.mant (2 ^ (-x.expo).toNat) = n := by
      split at h
      · exact Option.some.inj h
      · exact absurd h (by simp)
    have hr : x.toRat = (x.mant : ℚ) / (2 : ℚ) ^ (-x.expo).toNat := by
      unfold F32.toRat
      have : x.expo = -((-x.expo).toNat : ℤ) := by omega
      conv_lhs => rw [this, zpow_neg, zpow_natCast]
      rfl
    rw [hr, ← hn]
    exact toInt_trunc_aux _ _
theorem F32.toInt_range (x : F32) (n : Int) (h : x.toInt = some n) :
    -2147483648 ≤ n ∧ n ≤ 2147483647 := by
  unfold F32.toInt at h
  generalize (if 0 ≤ x.expo then x.mant * 2 ^ x.expo.toNat
    else Int.tdiv x.mant (2 ^ (-x.expo).toNat)) = t at h
  by_cases hr : -2147483648 ≤ t ∧ t ≤ 2147483647
  · simp only [hr, and_self, if_true, Option.some.injEq] at h
    rw [← h]
    exact hr
  · simp only [hr, if_false] at h
    exact absurd h (by simp)

/-! ## Claims -/

/-- C1. Unbounded tolerant wait: whatever the clock does, waitfor(colon, timeout 0,
ignore true) returns EMIC_OK at the first poll that reads a colon, after taking and
discarding the bytes read before it; on a sequence of polls without a colon it has
not returned; and it never returns any value other than EMIC_OK. -/
theorem waitfor_unbounded_only_returns_on_match
    (start : Nat) (pre : List Step) (s : Step) (rest : List Step)
    (hpre : ∀ p ∈ pre, p.avail ≠ some 58) (hs : s.avail = some 58) :
    waitfor COLON 0 true ⟨start, pre ++ s :: rest⟩
        = Run.done EMIC_OK (rxs pre ++ [Event.rx 58])
    ∧ waitfor COLON 0 true ⟨start, pre⟩ = Run.pending (rxs pre)
    ∧ (∀ (t0 : Nat) (steps : List Step), (∀ p ∈ steps, p.avail ≠ some 58) →
        waitfor COLON 0 true ⟨t0, steps⟩ = Run.pending (rxs steps))
    ∧ (∀ (sch : Sched) (v : Int) (t : List Event),
        waitfor COLON 0 true sch = Run.done v t → v = EMIC_OK) := by
  refine ⟨?_, ?_, ?_, ?_⟩
  · exact waitforLoop_unbounded_colon _ pre s rest hpre hs
  · exact waitforLoop_unbounded_quiet _ pre hpre
  · intro t0 steps h
    exact waitforLoop_unbounded_quiet _ steps h
  · intro sch v t h
    exact waitforLoop_unbounded_value _ sch.steps v t h

/-- Witness for C1: two stray bytes, a silent poll, then the colon. -/
theorem waitfor_unbounded_only_returns_on_match_witness :
    waitfor COLON 0 true ⟨7, [⟨some 13, 8⟩, ⟨none, 9⟩, ⟨some 65, 5000⟩, ⟨some 58, 5001⟩, ⟨some 66, 5002⟩]⟩
        = Run.done EMIC_OK [Event.rx 13, Event.rx 65, Event.rx 58]
    ∧ waitfor COLON 0 true ⟨7, [⟨some 13, 8⟩, ⟨none, 9⟩, ⟨some 65, 5000⟩]⟩
        = Run.pending [Event.rx 13, Event.rx 65] := by
  have h := waitfor_unbounded_only_returns_on_match 7
    [⟨some 13, 8⟩, ⟨none, 9⟩, ⟨some 65, 5000⟩] ⟨some 58, 5001⟩ [⟨some 66, 5002⟩]
    (by decide) rfl
  exact ⟨h.1, h.2.1⟩

/-- C9. Whatever the peripheral sends or fails to send, as long as each of the two waits
meets a colon or a loop test that finds its deadline reached, setup() returns true, and
what it does is: configure the UART, write the single stop byte X, wait (reading only),
write the parser selection P0 followed by a carriage return, wait again (reading only);
the bytes written to the transport are exactly X, P, 0, carriage return. -/
theorem setup_returns_true (st : Emic) (e1 e2 : Env)
    (h1 : ∃ s ∈ e1.ack.steps, s.avail = some 58 ∨ deadline e1.ack.start 1000 ≤ millis s.clock)
    (h2 : ∃ s ∈ e2.ack.steps, s.avail = some 58 ∨ deadline e2.ack.start 1000 ≤ millis s.clock) :
    ∃ w1 w2, w1 <+: e1.ack.steps ∧ w2 <+: e2.ack.steps ∧
      setup st e1 e2
        = Run.done true
            ([Event.uartEnd, Event.uartBegin 9600 st.rx_pin st.tx_pin,
              Event.setRxBufferSize 1024, Event.uartFlush]
              ++ dbgLine st Diag.stopLine ++ [Event.tx [88]] ++ rxs w1
              ++ dbgLine st Diag.parserLine ++ [Event.tx [80, 48, 13]] ++ rxs w2)
      ∧ wire (setup st e1 e2).trace = [88, 80, 48, 13] := by
  have hs1 : (waitfor COLON 1000 true e1.ack).bind (fun _ => Run.done () [])
      = specAckWait (deadline e1.ack.start 1000) e1.ack.steps :=
    waitforLoop_tolerant_eq_spec _ 1000 (by decide) e1.ack.steps
  have hs2 : (waitfor COLON 1000 true e2.ack).bind (fun _ => Run.done () [])
      = specAckWait (deadline e2.ack.start 1000) e2.ack.steps :=
    waitforLoop_tolerant_eq_spec _ 1000 (by decide) e2.ack.steps
  obtain ⟨w1, hp1, hw1⟩ := specAckWait_returns _ _ h1
  obtain ⟨w2, hp2, hw2⟩ := specAckWait_returns _ _ h2
  have hrun : setup st e1 e2
      = Run.done true
          ([Event.uartEnd, Event.uartBegin 9600 st.rx_pin st.tx_pin,
            Event.setRxBufferSize 1024, Event.uartFlush]
            ++ dbgLine st Diag.stopLine ++ [Event.tx [88]] ++ rxs w1
            ++ dbgLine st Diag.parserLine ++ [Event.tx [80, 48, 13]] ++ rxs w2) := by
    have hp : ¬ (2147483647 : Int) < 48 + DECTALK := by decide
    have hd : digitByte DECTALK = 48 := by decide
    simp only [setup, stop_playback, set_parser_sel, if_true, hs1, hs2, hw1, hw2, hp, if_false,
      hd]
    simp [Run.bind, Run.pre]
  refine ⟨w1, w2, hp1, hp2, hrun, ?_⟩
  rw [hrun]
  simp [Run.trace, wire]

/-- Witness for C9: a peripheral that never answers; both waits end on their deadline and
the transport has received X, P, 0, carriage return. -/
theorem setup_returns_true_witness :
    wire (setup ⟨17, 16, none, false⟩
        ⟨⟨0, [⟨none, 400⟩, ⟨none, 1000⟩]⟩, ⟨0, []⟩⟩
        ⟨⟨1000, [⟨none, 1500⟩, ⟨none, 2000⟩]⟩, ⟨0, []⟩⟩).trace = [88, 80, 48, 13] :=
  (setup_returns_true ⟨17, 16, none, false⟩
    ⟨⟨0, [⟨none, 400⟩, ⟨none, 1000⟩]⟩, ⟨0, []⟩⟩
    ⟨⟨1000, [⟨none, 1500⟩, ⟨none, 2000⟩]⟩, ⟨0, []⟩⟩
    ⟨⟨none, 1000⟩, by decide, Or.inr (by decide)⟩
    ⟨⟨none, 2000⟩, by decide, Or.inr (by decide)⟩).elim
    (fun _ h => h.elim (fun _ h2 => h2.2.2.2))

/-- C6. For a text without zero bytes, say(t, SYNC) writes the byte S, the bytes of t and a
carriage return, in this order and nothing else, then reads and discards bytes until it
has read a colon and returns the count length(t) + 2; as long as no colon has been read
it has not returned. -/
theorem say_sync_blocks_until_colon (st : Emic) (t : List Nat) (relay : RelaySched)
    (start : Nat) (pre : List Step) (s : Step) (rest : List Step)
    (hnul : ∀ b ∈ t, b ≠ 0)
    (hpre : ∀ p ∈ pre, p.avail ≠ some 58) (hs : s.avail = some 58) :
    say st t SYNC ⟨⟨start, pre ++ s :: rest⟩, relay⟩
        = Run.done ((t.length : Int) + 2)
            (fire st ++ dbgLine st Diag.sayLine
              ++ [Event.tx [83], Event.tx t, Event.tx [13]] ++ rxs pre ++ [Event.rx 58])
    ∧ wire (say st t SYNC ⟨⟨start, pre ++ s :: rest⟩, relay⟩).trace = 83 :: t ++ [13]
    ∧ say st t SYNC ⟨⟨start, pre⟩, relay⟩
        = Run.pending (fire st ++ dbgLine st Diag.sayLine
              ++ [Event.tx [83], Event.tx t, Event.tx [13]] ++ rxs pre) := by
  have hc : cstr t = t := by
    unfold cstr
    rw [List.takeWhile_eq_self_iff]
    intro b hb
    simpa using hnul b hb
  have h1 : waitfor COLON 0 true ⟨start, pre ++ s :: rest⟩
      = Run.done EMIC_OK (rxs pre ++ [Event.rx 58]) :=
    waitforLoop_unbounded_colon _ pre s rest hpre hs
  have h2 : waitfor COLON 0 true ⟨start, pre⟩ = Run.pending (rxs pre) :=
    waitforLoop_unbounded_quiet _ pre hpre
  have hrun : say st t SYNC ⟨⟨start, pre ++ s :: rest⟩, relay⟩
        = Run.done ((t.length : Int) + 2)
            (fire st ++ dbgLine st Diag.sayLine
              ++ [Event.tx [83], Event.tx t, Event.tx [13]] ++ rxs pre ++ [Event.rx 58]) := by
    simp only [say, hc, if_true, h1, Run.bind, Run.pre]
    simp
    ring
  refine ⟨hrun, ?_, ?_⟩
  · rw [hrun]
    simp [Run.trace, wire]
  · simp only [say, hc, if_true, h2, Run.bind, Run.pre]

/-- Witness for C6: say("Hello", SYNC) puts S H e l l o and a carriage return on the wire
and returns 7 once the colon has followed a stray byte. -/
theorem say_sync_blocks_until_colon_witness :
    wire (say ⟨17, 16, some 1, true⟩ [72, 101, 108, 108, 111] SYNC
            ⟨⟨0, [⟨some 10, 1⟩] ++ ⟨some 58, 2⟩ :: []⟩, ⟨0, []⟩⟩).trace
      = [83, 72, 101, 108, 108, 111, 13] :=
  (say_sync_blocks_until_colon ⟨17, 16, some 1, true⟩ [72, 101, 108, 108, 111] ⟨0, []⟩ 0
    [⟨some 10, 1⟩] ⟨some 58, 2⟩ [] (by decide) (by decide) rfl).2.1

/-- C5 (evaluation of the code). With wait = 0, the default, say does not return
immediately: because SYNC is 0 it enters the unbounded acknowledgment wait, and against a
peripheral that stays silent, for however many polls, it has written its bytes and is
still waiting. -/
theorem say_wait_zero_keeps_waiting (st : Emic) (t : List Nat) (start : Nat)
    (clocks : List Nat) (relay : RelaySched) :
    say st t 0 ⟨⟨start, clocks.map (fun c => ⟨none, c⟩)⟩, relay⟩
      = Run.pending (fire st ++ dbgLine st Diag.sayLine
          ++ [Event.tx [83], Event.tx (cstr t), Event.tx [13]]) := by
  have hq : ∀ p ∈ clocks.map (fun c => (⟨none, c⟩ : Step)), p.avail ≠ some 58 := by
    intro p hp
    obtain ⟨c, _, rfl⟩ := List.mem_map.mp hp
    simp
  have hr : rxs (clocks.map (fun c => (⟨none, c⟩ : Step))) = [] := by
    induction clocks with
    | nil => rfl
    | cons c cs ih =>
      simp only [List.map, rxs]
      exact ih (fun p hp => by
        obtain ⟨c, _, rfl⟩ := List.mem_map.mp hp
        simp)
  have h2 : waitfor COLON 0 true ⟨start, clocks.map (fun c => ⟨none, c⟩)⟩ = Run.pending [] := by
    have := waitforLoop_unbounded_quiet (deadline start 0) _ hq
    rw [hr] at this
    exact this
  have h0 : SYNC = (0 : Int) := rfl
  simp only [say, h0, if_true, h2, Run.bind, Run.pre]
  simp

/-- C2 (counterexample). The call is made at time 0 with timeout 10; the first poll, at
time 0, finds nothing and the loop test at time 9 lets the loop go on; a colon arrives at
time 12, after the 10 ms have elapsed, and the second poll, at time 13, reads it: the
call returns EMIC_OK where the claim demands EMIC_TMOUT. -/
theorem strict_wait_late_byte_counterexample :
    wellTimed 0 [⟨0, 9⟩, ⟨13, 13⟩] = true
    ∧ waitfor 58 10 false ⟨0, observe [⟨12, 58⟩] [⟨0, 9⟩, ⟨13, 13⟩]⟩
        = Run.done EMIC_OK [Event.rx 58]
    ∧ specStrictOutcome 58 10 0 [⟨12, 58⟩] = EMIC_TMOUT
    ∧ EMIC_OK ≠ EMIC_TMOUT := by
  decide

/-- C2 (amended). For every expected byte x and timeout T > 0 with start + T inside the
range of the 32-bit millisecond counter, waitfor(x, T, false) is decided by what the loop
meets first: the first byte a poll finds gives EMIC_OK when it is x and EMIC_FAIL when it
is not, provided every earlier loop test read a time before start + T; a loop test that
reads start + T or later, no poll having found a byte, gives EMIC_TMOUT; and while
neither has happened the call has not returned. -/
theorem waitfor_strict_outcome (x : Int) (T start : Nat) (quiet : List Step) (s : Step)
    (rest : List Step) (hT : 0 < T) (hfit : millis start + T < 4294967296)
    (hquiet : ∀ p ∈ quiet, p.avail = none ∧ millis p.clock < millis start + T) :
    (∀ b, s.avail = some b →
        waitfor x T false ⟨start, quiet ++ s :: rest⟩
          = Run.done (if (b : Int) = x then EMIC_OK else EMIC_FAIL) [Event.rx b])
    ∧ (s.avail = none → millis start + T ≤ millis s.clock →
        waitfor x T false ⟨start, quiet ++ s :: rest⟩ = Run.done EMIC_TMOUT [])
    ∧ waitfor x T false ⟨start, quiet⟩ = Run.pending [] := by
  have hd : deadline start (T : Int) = millis start + T := deadline_no_wrap start T hfit
  have hT0 : (T : Int) ≠ 0 := by omega
  have hq : ∀ p ∈ quiet, p.avail = none ∧ millis p.clock < deadline start (T : Int) := by
    rw [hd]
    exact hquiet
  refine ⟨?_, ?_, ?_⟩
  · intro b hb
    exact waitforLoop_strict_byte x T _ quiet s rest b hq hb
  · intro hn hc
    exact waitforLoop_strict_timeout x T _ hT0 quiet s rest hq hn (by rw [hd]; exact hc)
  · exact waitforLoop_strict_quiet x T _ quiet hq

/-- Witness for C2 (amended): timeout 10 from time 100; a silent poll, then a byte other
than the expected colon. -/
theorem waitfor_strict_outcome_witness :
    waitfor 58 (10 : Nat) false ⟨100, [⟨none, 105⟩] ++ ⟨some 65, 106⟩ :: [⟨some 58, 107⟩]⟩
      = Run.done EMIC_FAIL [Event.rx 65] :=
  (waitfor_strict_outcome 58 10 100 [⟨none, 105⟩] ⟨some 65, 106⟩ [⟨some 58, 107⟩]
    (by decide) (by decide) (by decide)).1 65 rfl

/-- The deadline is computed in 32-bit arithmetic: a strict wait of 10 ms opened 5 ms
before the millisecond counter wraps has the deadline 5, so that the first loop test,
1 ms after the call, already ends the wait with EMIC_TMOUT, and a colon arriving after
that is not read. -/
theorem waitfor_deadline_wraps_example :
    deadline 4294967291 10 = 5
    ∧ waitfor 58 10 false ⟨4294967291, [⟨none, 4294967292⟩, ⟨some 58, 4294967293⟩]⟩
        = Run.done EMIC_TMOUT [] := by
  decide

/-- C7 (counterexample). With a callback installed, set_voice(3, true) writes N 3 and a
carriage return, reads the colon and returns, and the callback has not been invoked. -/
theorem set_voice_skips_callback_counterexample :
    (set_callback (Emic.new 17 16) (some 1)).2.on_speak = some 1
    ∧ set_voice (set_callback (Emic.new 17 16) (some 1)).2 3 true
          ⟨⟨0, [⟨some 58, 1⟩]⟩, ⟨0, []⟩⟩
        = Run.done () [Event.tx [78, 51, 13], Event.rx 58]
    ∧ callbacks (set_voice (set_callback (Emic.new 17 16) (some 1)).2 3 true
          ⟨⟨0, [⟨some 58, 1⟩]⟩, ⟨0, []⟩⟩).trace = 0 := by
  decide

/-- C7 (amended). When a callback is installed (set_callback with a non-null callback
installs it), write(char), write(string) and say invoke it once, as the first thing they
do and so before any of their bytes is written; when no callback is installed they
invoke nothing; the settings commands and demo write to the UART directly and never
invoke the callback, installed or not. -/
theorem callback_fires_only_in_write_and_say (st : Emic) (c : Nat) (data : List Nat)
    (sync : Bool) (length : Nat) (wait which : Int) (cmd : Setting) (env : Env) :
    (∀ fn, st.on_speak = some fn →
        (write_char st c).trace = [Event.callback fn, Event.tx [c]]
        ∧ (∃ t, (write_str st data sync length env.ack).trace = Event.callback fn :: t
              ∧ callbacks t = 0)
        ∧ (∃ t, (say st data wait env).trace = Event.callback fn :: t ∧ callbacks t = 0))
    ∧ (∀ fn, (set_callback st (some fn)).2.on_speak = some fn)
    ∧ (st.on_speak = none →
        callbacks (write_char st c).trace = 0
        ∧ callbacks (write_str st data sync length env.ack).trace = 0
        ∧ callbacks (say st data wait env).trace = 0)
    ∧ callbacks (cmd.run st sync env).trace = 0
    ∧ callbacks (demo st which wait env).trace = 0 := by
  have hw : ∀ (n : Int), callbacks (if sync = true then
      (waitfor COLON 0 true env.ack).bind (fun _ => Run.done n [])
      else Run.done n []).trace = 0 := by
    intro n
    cases sync
    · rfl
    · simp only [if_true]
      rw [Run.trace_bind_done]
      exact callbacks_waitforLoop _ _ _ _ _
  have hsay : ∀ (n : Int), callbacks (if SYNC = wait then
      (waitfor COLON 0 true env.ack).bind (fun _ => Run.done n [])
      else (read_and_show wait env.relay).bind (fun _ => Run.done n [])).trace = 0 := by
    intro n
    split
    · rw [Run.trace_bind_done]
      exact callbacks_waitforLoop _ _ _ _ _
    · rw [Run.trace_bind_done]
      exact callbacks_read_and_show _ _
  refine ⟨?_, fun _ => rfl, ?_, callbacks_setting st sync env cmd,
    callbacks_demo st which wait env⟩
  · intro fn hfn
    have hf : fire st = [Event.callback fn] := by simp [fire, hfn]
    refine ⟨?_, ?_, ?_⟩
    · simp [write_char, hf, Run.trace]
    · simp only [write_str, hf]
      generalize (if length = 0 then (cstr data).length else length) = len
      by_cases hlen : data.length + 1 < len
      · rw [if_pos hlen]
        exact ⟨[], rfl, rfl⟩
      · rw [if_neg hlen]
        refine ⟨_, by rw [Run.trace_pre]; rfl, ?_⟩
        simp [callbacks, hw]
    · unfold say
      simp only [hf]
      refine ⟨_, by rw [Run.trace_pre]; rfl, ?_⟩
      simp [callbacks, hsay]
  · intro hnone
    have hf : fire st = [] := by simp [fire, hnone]
    refine ⟨?_, ?_, ?_⟩
    · simp [write_char, hf, Run.trace, callbacks]
    · simp only [write_str, hf]
      generalize (if length = 0 then (cstr data).length else length) = len
      by_cases hlen : data.length + 1 < len
      · rw [if_pos hlen]
        rfl
      · rw [if_neg hlen]
        simp [callbacks, hw]
    · unfold say
      simp only [hf]
      simp [callbacks, hsay]

/-- Witness for C7 (amended): say("Hi", SYNC) with callback 1 installed. -/
theorem callback_fires_only_in_write_and_say_witness :
    ∃ t, (say ⟨17, 16, some 1, false⟩ [72, 105] SYNC ⟨⟨0, [⟨some 58, 1⟩]⟩, ⟨0, []⟩⟩).trace
        = Event.callback 1 :: t ∧ callbacks t = 0 :=
  ((callback_fires_only_in_write_and_say ⟨17, 16, some 1, false⟩ 0 [72, 105] true 0 SYNC 0
    Setting.stop_playback ⟨⟨0, [⟨some 58, 1⟩]⟩, ⟨0, []⟩⟩).1 1 rfl).2.2

/-- C4 (counterexample). The call set_voice(3), sync left at its default false, while
the console offers the byte A during the settle window: the transport receives N 3
carriage-return and then A, four bytes instead of three. -/
theorem set_voice_relay_counterexample :
    set_voice ⟨17, 16, none, false⟩ 3 false ⟨⟨0, []⟩, ⟨0, [⟨[], [65], 30⟩]⟩⟩
        = Run.done () [Event.tx [78, 51, 13], Event.consoleRead [65], Event.tx [65],
            Event.echo [65]]
    ∧ wire (set_voice ⟨17, 16, none, false⟩ 3 false ⟨⟨0, []⟩, ⟨0, [⟨[], [65], 30⟩]⟩⟩).trace
        = [78, 51, 13, 65] := by
  decide

/-- C4 (amended). For every index k from 0 to 9, set_voice(k), set_parser(k),
set_language(k) and demo(k) write as their command exactly three bytes, the letter (N, P,
L, D), the digit byte 0x30 + k and a carriage return, with nothing before. Nothing
follows when the call ends in an acknowledgment wait (sync = true; demo with wait = SYNC,
its default). With sync = false (demo: another wait) the only bytes that follow are the
console input that the relay loop forwards to the transport during the iterations it
runs, so nothing follows when the console offers no input. -/
theorem index_command_framing (st : Emic) (k : Nat) (hk : k ≤ 9) (wait : Int) (env : Env) :
    (wire (set_voice st k true env).trace = [78, 48 + k, 13]
      ∧ wire (set_parser_sel st k true env).trace = [80, 48 + k, 13]
      ∧ wire (set_language st k true env).trace = [76, 48 + k, 13]
      ∧ wire (demo st k SYNC env).trace = [68, 48 + k, 13])
    ∧ (∃ ran, ran <+: env.relay.steps
        ∧ wire (set_voice st k false env).trace = [78, 48 + k, 13] ++ consoleInput ran
        ∧ wire (set_parser_sel st k false env).trace = [80, 48 + k, 13] ++ consoleInput ran
        ∧ wire (set_language st k false env).trace = [76, 48 + k, 13] ++ consoleInput ran)
    ∧ (wait ≠ SYNC → ∃ ran, ran <+: env.relay.steps
        ∧ wire (demo st k wait env).trace = [68, 48 + k, 13] ++ consoleInput ran)
    ∧ ((∀ s ∈ env.relay.steps, s.console = []) →
        wire (set_voice st k false env).trace = [78, 48 + k, 13]
        ∧ wire (set_parser_sel st k false env).trace = [80, 48 + k, 13]
        ∧ wire (set_language st k false env).trace = [76, 48 + k, 13]
        ∧ wire (demo st k wait env).trace = [68, 48 + k, 13]) := by
  have hd : digitByte (k : Int) = 48 + k := digitByte_digit k hk
  have hov : ¬ (2147483647 : Int) < 48 + (k : Int) := by omega
  have hv : ∀ sync, set_voice st k sync env
      = Run.pre (dbgLine st Diag.voiceLine ++ [Event.tx [78, 48 + k, 13]])
          (if sync then (waitfor COLON 1000 true env.ack).bind (fun _ => Run.done () [])
           else read_and_show SETTLE_TIME env.relay) := by
    intro sync
    simp only [set_voice, hov, if_false, hd]
  have hp : ∀ sync, set_parser_sel st k sync env
      = Run.pre (dbgLine st Diag.parserLine ++ [Event.tx [80, 48 + k, 13]])
          (if sync then (waitfor COLON 1000 true env.ack).bind (fun _ => Run.done () [])
           else read_and_show SETTLE_TIME env.relay) := by
    intro sync
    simp only [set_parser_sel, hov, if_false, hd]
  have hl : ∀ sync, set_language st k sync env
      = Run.pre (dbgLine st Diag.languageLine ++ [Event.tx [76, 48 + k, 13]])
          (if sync then (waitfor COLON 1000 true env.ack).bind (fun _ => Run.done () [])
           else read_and_show SETTLE_TIME env.relay) := by
    intro sync
    simp only [set_language, hov, if_false, hd]
  have hdm : ∀ w, demo st k w env
      = Run.pre (dbgLine st Diag.demoLine ++ [Event.tx [68, 48 + k, 13]])
          (if SYNC = w then (waitfor COLON 0 true env.ack).bind (fun _ => Run.done () [])
           else read_and_show w env.relay) := by
    intro w
    simp only [demo, hd]
  obtain ⟨ran, hran, hwire⟩ := wire_relayLoop (deadline env.relay.start SETTLE_TIME)
    env.relay.steps
  have hrs : wire (read_and_show SETTLE_TIME env.relay).trace = consoleInput ran := hwire
  refine ⟨⟨?_, ?_, ?_, ?_⟩, ⟨ran, hran, ?_, ?_, ?_⟩, ?_, ?_⟩
  · rw [hv true]; exact wire_index_sync _ _ _ _ _
  · rw [hp true]; exact wire_index_sync _ _ _ _ _
  · rw [hl true]; exact wire_index_sync _ _ _ _ _
  · rw [hdm SYNC]; exact wire_index_sync _ _ _ _ _
  · rw [hv false, ← hrs]; exact wire_index_relay _ _ _ _ _
  · rw [hp false, ← hrs]; exact wire_index_relay _ _ _ _ _
  · rw [hl false, ← hrs]; exact wire_index_relay _ _ _ _ _
  · intro hw
    obtain ⟨ran2, hran2, hwire2⟩ := wire_relayLoop (deadline env.relay.start wait)
      env.relay.steps
    have hrs2 : wire (read_and_show wait env.relay).trace = consoleInput ran2 := hwire2
    refine ⟨ran2, hran2, ?_⟩
    rw [hdm wait, if_neg (fun h => hw h.symm), ← hrs2]
    exact wire_index_relay _ _ _ _ _
  · intro hq
    have hquiet : ∀ w, wire (read_and_show w env.relay).trace = [] := fun w =>
      wire_relayLoop_quiet _ _ hq
    refine ⟨?_, ?_, ?_, ?_⟩
    · rw [hv false]
      exact (wire_index_relay _ _ _ _ _).trans (by rw [hquiet]; simp)
    · rw [hp false]
      exact (wire_index_relay _ _ _ _ _).trans (by rw [hquiet]; simp)
    · rw [hl false]
      exact (wire_index_relay _ _ _ _ _).trans (by rw [hquiet]; simp)
    · rw [hdm wait]
      by_cases hw : SYNC = wait
      · rw [if_pos hw]; exact wire_index_sync _ _ _ _ _
      · rw [if_neg hw]
        exact (wire_index_relay _ _ _ _ _).trans (by rw [hquiet]; simp)

/-- Witness for C4 (amended): set_voice(3, true) puts exactly N 3 carriage-return on the
wire. -/
theorem index_command_framing_witness :
    wire (set_voice ⟨17, 16, none, true⟩ (3 : Nat) true
      ⟨⟨0, [⟨some 58, 1⟩]⟩, ⟨0, []⟩⟩).trace = [78, 48 + 3, 13] :=
  (index_command_framing ⟨17, 16, none, true⟩ 3 (by decide) 0
    ⟨⟨0, [⟨some 58, 1⟩]⟩, ⟨0, []⟩⟩).1.1

/-- C10. For every 32-bit signed wpm the text W, decimal(wpm), carriage return reads back
as wpm, and it fits the 8-byte buffer together with its terminating zero exactly when
-9999 <= wpm <= 99999. Within that range set_words_per_minute writes exactly that text as
its command (and with sync = true nothing else reaches the transport); outside it the
text is longer than the buffer, and the call overruns the buffer. -/
theorem wpm_text_fits_iff (wpm : Int) (hlo : -2147483648 ≤ wpm) (hhi : wpm ≤ 2147483647) :
    parseInt (fmtInt wpm) = wpm
    ∧ (([87] ++ fmtInt wpm ++ [13]).length + 1 ≤ 8 ↔ (-9999 ≤ wpm ∧ wpm ≤ 99999))
    ∧ ((-9999 ≤ wpm ∧ wpm ≤ 99999) → ∀ (st : Emic) (sync : Bool) (env : Env),
        set_words_per_minute st wpm sync env
          = Run.pre (dbgLine st Diag.wpmLine ++ [Event.tx ([87] ++ fmtInt wpm ++ [13])])
              (if sync then (waitfor COLON 1000 true env.ack).bind (fun _ => Run.done () [])
               else read_and_show SETTLE_TIME env.relay)
        ∧ wire (set_words_per_minute st wpm true env).trace = [87] ++ fmtInt wpm ++ [13])
    ∧ (¬ (-9999 ≤ wpm ∧ wpm ≤ 99999) →
        8 < ([87] ++ fmtInt wpm ++ [13]).length + 1
        ∧ ∀ (st : Emic) (sync : Bool) (env : Env),
            set_words_per_minute st wpm sync env = Run.undef (dbgLine st Diag.wpmLine)) := by
  have hiff := fmtInt_length_le_iff wpm hlo hhi
  have hlen : ([87] ++ fmtInt wpm ++ [13]).length + 1 = (fmtInt wpm).length + 3 := by
    simp
  refine ⟨parseInt_fmtInt wpm hlo hhi, ?_, ?_, ?_⟩
  · rw [hlen, ← hiff]
    omega
  · intro hin st sync env
    have hfit : ¬ 8 < ([87] ++ fmtInt wpm ++ [13]).length + 1 := by
      rw [hlen]
      have := hiff.mpr hin
      omega
    have hrun : ∀ sy, set_words_per_minute st wpm sy env
          = Run.pre (dbgLine st Diag.wpmLine ++ [Event.tx ([87] ++ fmtInt wpm ++ [13])])
              (if sy then (waitfor COLON 1000 true env.ack).bind (fun _ => Run.done () [])
               else read_and_show SETTLE_TIME env.relay) := by
      intro sy
      simp only [set_words_per_minute, hfit, if_false]
    refine ⟨hrun sync, ?_⟩
    rw [hrun true]
    exact wire_index_sync _ _ _ _ _
  · intro hout
    have hbig : 8 < ([87] ++ fmtInt wpm ++ [13]).length + 1 := by
      rw [hlen]
      have : ¬ (fmtInt wpm).length ≤ 5 := fun h => hout (hiff.mp h)
      omega
    refine ⟨hbig, ?_⟩
    intro st sync env
    simp only [set_words_per_minute, hbig, if_true]

/-- Witness for C10: the default rate 230 gives the text W 2 3 0 carriage-return, which
fits. -/
theorem wpm_text_fits_iff_witness :
    ([87] ++ fmtInt 230 ++ [13]).length + 1 ≤ 8 ↔ (-9999 ≤ (230 : Int) ∧ (230 : Int) ≤ 99999) :=
  (wpm_text_fits_iff 230 (by decide) (by decide)).2.1

/-- C3 (counterexample). For the volume 75.0 the code embeds 1, whether or not the
compiler fuses the product and the difference, and writes V 1 carriage-return; rounding
0.66 * 75 - 48 = 1.5 to the nearest integer gives 2. -/
theorem set_volume_rounding_counterexample :
    volumeArg false ⟨75, 0⟩ = some 1
    ∧ volumeArg true ⟨75, 0⟩ = some 1
    ∧ specVolumeArg ⟨75, 0⟩ = 2
    ∧ wire (set_volume ⟨17, 16, none, false⟩ false ⟨75, 0⟩ true
        ⟨⟨0, [⟨some 58, 1⟩]⟩, ⟨0, []⟩⟩).trace = [86, 49, 13] := by
  decide

/-- C3 (amended). For every finite volume for which the conversion to int is defined,
the integer n that set_volume embeds in its command is the single precision value of
0.66f * volume - 48.0f with the fractional part discarded (truncation toward zero, not
rounding to nearest); the text V, decimal(n), carriage return reads back as n and is what
the command writes when it fits the buffer. In particular volume 75.0 gives 1 (wire bytes
V 1 carriage-return) and volume 48.0 gives -16 (wire bytes V - 1 6 carriage-return). -/
theorem set_volume_truncates (contract : Bool) (volume : F32) (n : Int)
    (h : volumeArg contract volume = some n) :
    (∃ x, volumeValue contract volume = some x
        ∧ n = (if 0 ≤ x.toRat then ⌊x.toRat⌋ else ⌈x.toRat⌉))
    ∧ parseInt (fmtInt n) = n
    ∧ ((fmtInt n).length ≤ 5 → ∀ (st : Emic) (sync : Bool) (env : Env),
        set_volume st contract volume sync env
          = Run.pre (dbgLine st Diag.volumeLine ++ [Event.tx ([86] ++ fmtInt n ++ [13])])
              (if sync then (waitfor COLON 1000 true env.ack).bind (fun _ => Run.done () [])
               else read_and_show SETTLE_TIME env.relay))
    ∧ volumeArg contract ⟨75, 0⟩ = some 1
    ∧ volumeArg contract ⟨48, 0⟩ = some (-16)
    ∧ [86] ++ fmtInt 1 ++ [13] = [86, 49, 13]
    ∧ [86] ++ fmtInt (-16) ++ [13] = [86, 45, 49, 54, 13] := by
  have hx : ∃ x, volumeValue contract volume = some x ∧ x.toInt = some n := by
    unfold volumeArg at h
    cases hv : volumeValue contract volume with
    | none => rw [hv] at h; simp at h
    | some x => rw [hv] at h; exact ⟨x, rfl, h⟩
  obtain ⟨x, hxv, hxn⟩ := hx
  have hr := F32.toInt_range x n hxn
  refine ⟨⟨x, hxv, F32.toInt_trunc x n hxn⟩, parseInt_fmtInt n hr.1 hr.2, ?_, ?_, ?_, ?_, ?_⟩
  · intro hfit st sync env
    have hlen : ¬ 8 < ([86] ++ fmtInt n ++ [13]).length + 1 := by
      simp
      omega
    simp only [set_volume, h, hlen, if_false]
  · cases contract <;> decide
  · cases contract <;> decide
  · decide
  · decide

/-- Witness for C3 (amended): the quiet volume 62.0 gives -7. -/
theorem set_volume_truncates_witness :
    ∃ x, volumeValue false ⟨62, 0⟩ = some x
      ∧ (-7 : Int) = (if 0 ≤ x.toRat then ⌊x.toRat⌋ else ⌈x.toRat⌉) :=
  (set_volume_truncates false ⟨62, 0⟩ (-7) (by decide)).1

end ESP32Emic2
